import Mathlib

/-!
# Verification of the strung finding-tracking core

Shallow embedding of the Go sources of TheEditor/strung:

* pkg/db/tracking.go        — fingerprinting and the findings / operation-log store
* pkg/parser/ubs.go         — severity filtering of parsed scanner reports
* pkg/sync/diff.go          — the new / changed / resolved classification
* pkg/sync/transaction.go   — the operation-log transaction helper
* cmd/strung/sync.go        — the sync orchestrator (executeActions)

Go strings are modeled as lists of characters, timestamps as natural-number
ticks, and the SQLite tables as lists of records.  The SHA-256 hex digest used
by ComputeFingerprint is modeled as an abstract hash parameter; theorems whose
truth depends on collision-freeness of the digest take injectivity of that
parameter as a hypothesis.
-/

namespace Strung

/-- Go strings modeled as lists of characters. -/
abbrev GoStr := List Char

/-- Conversion from a Lean string literal to the Go-string model. -/
def gostr (s : String) : GoStr := s.data

/-- Models Go unicode.IsSpace on the ASCII range: space, tab, newline,
vertical tab, form feed, carriage return.  (Go additionally treats a few
non-ASCII Unicode spaces as white space; no claim in question involves them.) -/
def isSpace (c : Char) : Bool :=
  c == ' ' || c == '\t' || c == '\n' || c == Char.ofNat 11 || c == Char.ofNat 12 || c == '\r'

/-- Models Go strings.ToLower on one character, on the ASCII range: uppercase
letters map to the corresponding lowercase letters, everything else is kept. -/
def goToLower (c : Char) : Char :=
  match c with
  | 'A' => 'a' | 'B' => 'b' | 'C' => 'c' | 'D' => 'd' | 'E' => 'e' | 'F' => 'f'
  | 'G' => 'g' | 'H' => 'h' | 'I' => 'i' | 'J' => 'j' | 'K' => 'k' | 'L' => 'l'
  | 'M' => 'm' | 'N' => 'n' | 'O' => 'o' | 'P' => 'p' | 'Q' => 'q' | 'R' => 'r'
  | 'S' => 's' | 'T' => 't' | 'U' => 'u' | 'V' => 'v' | 'W' => 'w' | 'X' => 'x'
  | 'Y' => 'y' | 'Z' => 'z'
  | other => other

/-- The decimal digit characters, as used by fmt's %d verb. -/
def digitChar (n : Nat) : Char :=
  match n with
  | 0 => '0' | 1 => '1' | 2 => '2' | 3 => '3' | 4 => '4'
  | 5 => '5' | 6 => '6' | 7 => '7' | 8 => '8' | 9 => '9'
  | _ => '*'

/-- Fueled decimal rendering (most significant digit first). -/
def natToDecAux : Nat → Nat → GoStr
  | 0, _ => []
  | fuel + 1, n => if n < 10 then [digitChar n] else natToDecAux fuel (n / 10) ++ [digitChar (n % 10)]

/-- Models fmt's %d verb on a natural number (the source formats a Go int;
every line number the program handles is positive). -/
def natToDec (n : Nat) : GoStr := natToDecAux (n + 1) n

/-- Models Go strings.TrimSpace: remove leading and trailing white space. -/
def trimSpace (s : GoStr) : GoStr := (s.dropWhile isSpace).rdropWhile isSpace

/-- Models Go strings.Fields: the maximal runs of non-white-space characters
of s, in order.  Splitting at every white-space character and discarding the
empty pieces yields exactly those runs. -/
def fields (s : GoStr) : List GoStr :=
  (s.splitOnP isSpace).filter (fun w => decide (w ≠ []))

/-- The loop body of normalizeCodeContext (pkg/db/tracking.go):
line = strings.TrimSpace(line); line = strings.ToLower(line);
line = strings.Join(strings.Fields(line), " "). -/
def normLine (line : GoStr) : GoStr :=
  let line1 := trimSpace line
  let line2 := line1.map goToLower
  List.intercalate (gostr " ") (fields line2)

/-- Models normalizeCodeContext (pkg/db/tracking.go): split the snippet on
newlines, keep all lines when there are at most 6 and otherwise the first 3
and the last 3, normalize each kept line, drop the lines that normalize to the
empty string, and join the remainder with "|". -/
def normalizeCodeContext (snippet : GoStr) : GoStr :=
  let lines := snippet.splitOn '\n'
  let selected := if lines.length ≤ 6 then lines else lines.take 3 ++ lines.drop (lines.length - 3)
  let normalized := (selected.map normLine).filter (fun l => decide (l ≠ []))
  List.intercalate (gostr "|") normalized

/-- The byte string ComputeFingerprint (pkg/db/tracking.go) feeds to the
SHA-256 digest: "%s:%s:%s:%s" of file, category, message and the normalized
context when the snippet is non-empty, and "%s:%d:%s:%s" of file, line,
category and message otherwise. -/
def fingerprintInput (file category message codeSnippet : GoStr) (line : Nat) : GoStr :=
  if codeSnippet ≠ [] then
    file ++ gostr ":" ++ category ++ gostr ":" ++ message ++ gostr ":" ++
      normalizeCodeContext codeSnippet
  else
    file ++ gostr ":" ++ natToDec line ++ gostr ":" ++ category ++ gostr ":" ++ message

/-- Models ComputeFingerprint (pkg/db/tracking.go).  The source returns the
hex encoding of the SHA-256 digest of fingerprintInput; the digest-and-encode
step is the abstract parameter hash. -/
def ComputeFingerprint (hash : GoStr → GoStr) (file category message codeSnippet : GoStr)
    (line : Nat) : GoStr :=
  hash (fingerprintInput file category message codeSnippet line)

/-! ## Scanner findings and the severity filter (pkg/parser/ubs.go) -/

/-- Models parser.UBSFinding: one finding of a UBS scan report. -/
structure UBSFinding where
  file : GoStr
  line : Nat
  column : Nat
  severity : GoStr
  category : GoStr
  message : GoStr
  suggestion : GoStr
  codeSnippet : GoStr
deriving DecidableEq

/-- The severityLevel map of FilterBySeverity: critical 0, warning 1, info 2;
none models a key that is absent from the Go map. -/
def severityLevel (s : GoStr) : Option Nat :=
  if s = gostr "critical" then some 0
  else if s = gostr "warning" then some 1
  else if s = gostr "info" then some 2
  else none

/-- Models UBSReport.FilterBySeverity (pkg/parser/ubs.go): keep the findings
whose severity level is at most the minimum severity's level, where a severity
string absent from the map defaults to level 2 on both sides. -/
def FilterBySeverity (findings : List UBSFinding) (minSeverity : GoStr) : List UBSFinding :=
  let minLevel := (severityLevel minSeverity).getD 2
  findings.filter (fun finding => decide ((severityLevel finding.severity).getD 2 ≤ minLevel))

/-- Models UBSFinding.Validate (pkg/parser/ubs.go): a finding needs a
non-empty file, a positive line, a non-empty category and a non-empty
message. -/
def Validate (f : UBSFinding) : Bool :=
  decide (f.file ≠ []) && decide (0 < f.line) && decide (f.category ≠ []) && decide (f.message ≠ [])

/-- The severity rank described by the spec: the total order
critical 0 < warning 1 < info 2, with every unrecognized severity string
ranked as the least severe tier.  (Spec-side definition, used to state what
the filter keeps; compare with severityLevel from the source.) -/
def sevRank (s : GoStr) : Nat :=
  if s = gostr "critical" then 0
  else if s = gostr "warning" then 1
  else 2

/-! ## The findings store (pkg/db/tracking.go) -/

/-- Models db.Finding: one persisted row of the findings table.  Timestamps
are natural-number ticks; resolvedAt none models SQL NULL. -/
structure DBFinding where
  fingerprint : GoStr
  issueID : GoStr
  file : GoStr
  line : Nat
  severity : GoStr
  category : GoStr
  message : GoStr
  firstSeen : Nat
  lastSeen : Nat
  resolvedAt : Option Nat
deriving DecidableEq

/-- The findings table, as the list of its rows. -/
abbrev FindingsTable := List DBFinding

/-- Models TrackingDB.Store (pkg/db/tracking.go): INSERT with an
ON CONFLICT(fingerprint) DO UPDATE clause.  A fresh insert fills every column
except resolved_at, which the INSERT omits and so is NULL; on conflict only
last_seen and severity are overwritten and resolved_at is set to NULL, every
other column of the existing row is kept. -/
def Store (tbl : FindingsTable) (f : DBFinding) : FindingsTable :=
  if tbl.any (fun r => decide (r.fingerprint = f.fingerprint)) then
    tbl.map (fun r =>
      if r.fingerprint = f.fingerprint then
        { r with lastSeen := f.lastSeen, severity := f.severity, resolvedAt := none }
      else r)
  else
    tbl ++ [{ f with resolvedAt := none }]

/-- Models TrackingDB.Get (pkg/db/tracking.go): the row whose primary key
equals the fingerprint, none when absent. -/
def Get (tbl : FindingsTable) (fingerprint : GoStr) : Option DBFinding :=
  tbl.find? (fun r => decide (r.fingerprint = fingerprint))

/-- Models TrackingDB.GetUnresolved (pkg/db/tracking.go): the rows whose
resolved_at is NULL, ordered by last_seen descending. -/
def GetUnresolved (tbl : FindingsTable) : List DBFinding :=
  (tbl.filter (fun r => decide (r.resolvedAt = none))).mergeSort
    (fun a b => decide (b.lastSeen ≤ a.lastSeen))

/-- The outcome of a MarkResolved call: success, the not-found error, or the
runtime panic the source raises when it slices fingerprint[:12] while
formatting the not-found error for a fingerprint shorter than 12 bytes. -/
inductive MarkResolvedOutcome where
  | ok
  | notFoundError
  | panicSliceBound
deriving DecidableEq

/-- Models TrackingDB.MarkResolved (pkg/db/tracking.go): UPDATE the
resolved_at column of the rows matching the fingerprint; when no row was
affected, return the not-found error - whose message slices fingerprint[:12]
and therefore panics when the fingerprint has fewer than 12 characters. -/
def MarkResolved (tbl : FindingsTable) (fingerprint : GoStr) (resolvedAt : Nat) :
    FindingsTable × MarkResolvedOutcome :=
  let updated := tbl.map (fun r =>
    if r.fingerprint = fingerprint then { r with resolvedAt := some resolvedAt } else r)
  let rows := tbl.countP (fun r => decide (r.fingerprint = fingerprint))
  if rows = 0 then
    if fingerprint.length < 12 then (updated, .panicSliceBound)
    else (updated, .notFoundError)
  else (updated, .ok)

/-- Models db.Operation: one row of the append-only operation_log table. -/
structure OperationRec where
  id : Nat
  operation : GoStr
  fingerprint : GoStr
  issueID : GoStr
  status : GoStr
  error : GoStr
  createdAt : Nat
deriving DecidableEq

/-- Models TrackingDB.LogOperation (pkg/db/tracking.go): append the record
and return the AUTOINCREMENT id assigned to it; ids start at 1. -/
def LogOperation (log : List OperationRec) (operation fingerprint issueID status : GoStr)
    (createdAt : Nat) : List OperationRec × Nat :=
  let id := log.length + 1
  (log ++ [{ id := id, operation := operation, fingerprint := fingerprint, issueID := issueID,
             status := status, error := [], createdAt := createdAt }], id)

/-- Models TrackingDB.UpdateOperationStatus (pkg/db/tracking.go): UPDATE the
status and error columns of the row with the given id (no row is touched when
the id is absent, and that is not an error). -/
def UpdateOperationStatus (log : List OperationRec) (id : Nat) (status errorMsg : GoStr) :
    List OperationRec :=
  log.map (fun op => if op.id = id then { op with status := status, error := errorMsg } else op)

/-- Models Transaction.BeginCreate (pkg/sync/transaction.go): log a pending
create operation for the finding.  The id LogOperation returns is discarded
by the source (the blank identifier). -/
def BeginCreate (log : List OperationRec) (finding : DBFinding) (now : Nat) :
    List OperationRec :=
  (LogOperation log (gostr "create") finding.fingerprint finding.issueID (gostr "pending") now).1

/-- Models Transaction.CompleteCreate (pkg/sync/transaction.go): the source
updates the status of the operation with the hardcoded id 0 - not the id that
LogOperation returned. -/
def CompleteCreate (log : List OperationRec) : List OperationRec :=
  UpdateOperationStatus log 0 (gostr "completed") []

/-! ## The differ (pkg/sync/diff.go)

Go maps keyed by fingerprint are modeled as association lists: assigning to a
key that is present overwrites its value in place, assigning to an absent key
appends the new entry.  The source iterates the two maps with Go's range
statement, whose order is unspecified; the embedding iterates the entries in
this canonical first-insertion order. -/

/-- Assignment m[k] = v on a Go map modeled as an association list. -/
def insertKV {α : Type} (m : List (GoStr × α)) (k : GoStr) (v : α) : List (GoStr × α) :=
  if m.any (fun e => decide (e.1 = k)) then
    m.map (fun e => if e.1 = k then (k, v) else e)
  else
    m ++ [(k, v)]

/-- Lookup m[k] on a Go map modeled as an association list. -/
def lookupKV {α : Type} (m : List (GoStr × α)) (k : GoStr) : Option α :=
  (m.find? (fun e => decide (e.1 = k))).map (fun e => e.2)

/-- Build a Go map from a list, keying every element by keyOf; later elements
overwrite earlier ones with the same key. -/
def buildMap {α : Type} (keyOf : α → GoStr) (xs : List α) : List (GoStr × α) :=
  xs.foldl (fun m x => insertKV m (keyOf x) x) []

/-- The fingerprint the differ computes for an incoming finding
(db.ComputeFingerprint of its file, category, message, snippet and line). -/
def fpOf (hash : GoStr → GoStr) (f : UBSFinding) : GoStr :=
  ComputeFingerprint hash f.file f.category f.message f.codeSnippet f.line

/-- The currentMap of Differ.Diff: incoming findings keyed by computed
fingerprint, last one winning. -/
def buildCurrentMap (hash : GoStr → GoStr) (currentFindings : List UBSFinding) :
    List (GoStr × UBSFinding) :=
  buildMap (fpOf hash) currentFindings

/-- The dbMap of Differ.Diff: stored findings keyed by their fingerprint
column. -/
def buildDbMap (dbFindings : List DBFinding) : List (GoStr × DBFinding) :=
  buildMap (fun f => f.fingerprint) dbFindings

/-- Models sync.ChangeRecord: a previous stored record paired with the
current incoming finding. -/
structure ChangeRecord where
  previous : DBFinding
  current : UBSFinding
deriving DecidableEq

/-- Models sync.DiffResult. -/
structure DiffResult where
  new : List UBSFinding
  changed : List ChangeRecord
  resolved : List DBFinding
deriving DecidableEq

/-- Models Differ.Diff (pkg/sync/diff.go) given the store's unresolved rows:
an entry of the current map goes to New when its fingerprint is absent from
the db map, to Changed (paired with the stored record) when present with a
different severity, and nowhere when present with the same severity; an entry
of the db map whose fingerprint is absent from the current map goes to
Resolved. -/
def Diff (hash : GoStr → GoStr) (currentFindings : List UBSFinding)
    (dbFindings : List DBFinding) : DiffResult :=
  let currentMap := buildCurrentMap hash currentFindings
  let dbMap := buildDbMap dbFindings
  { new := currentMap.filterMap (fun e =>
      match lookupKV dbMap e.1 with
      | none => some e.2
      | some _ => none),
    changed := currentMap.filterMap (fun e =>
      match lookupKV dbMap e.1 with
      | none => none
      | some previous =>
        if previous.severity ≠ e.2.severity then some ⟨previous, e.2⟩ else none),
    resolved := dbMap.filterMap (fun e =>
      match lookupKV currentMap e.1 with
      | none => some e.2
      | some _ => none) }

/-- Models DiffResult.IsEmpty (pkg/sync/diff.go). -/
def DiffResult.IsEmpty (r : DiffResult) : Bool :=
  r.new.length == 0 && r.changed.length == 0 && r.resolved.length == 0

/-- Models DiffResult.TotalActions (pkg/sync/diff.go). -/
def DiffResult.TotalActions (r : DiffResult) : Nat :=
  r.new.length + r.changed.length + r.resolved.length

/-- One run of the differ against a store: Diff reads the store's unresolved
set through GetUnresolved and performs no write, so the table comes back
unchanged. -/
def runDiff (hash : GoStr → GoStr) (tbl : FindingsTable) (currentFindings : List UBSFinding) :
    DiffResult × FindingsTable :=
  (Diff hash currentFindings (GetUnresolved tbl), tbl)

/-! ## The sync orchestrator (cmd/strung/sync.go)

executeActions drives the external tracker through the bd CLI.  The embedding
records every externally visible step of a run as an event: the tracker
mutations (create / update priority / close) with their outcomes, and the
writes to the tracking database - rows stored or marked resolved in the
findings table, and rows written to the operation_log table.  The source of
executeActions contains no call to LogOperation or UpdateOperationStatus (the
Transaction helper of pkg/sync/transaction.go is never invoked), so no run of
the embedding ever emits a logWrite event. -/

/-- Models transform.Transformer.SeverityToPriority (pkg/transform/
transform.go): critical 0, warning 1, info 2, default 2. -/
def SeverityToPriority (severity : GoStr) : Nat :=
  if severity = gostr "critical" then 0
  else if severity = gostr "warning" then 1
  else if severity = gostr "info" then 2
  else 2

/-- Models transform.Transformer.Transform as far as executeActions depends
on it: the transformation succeeds exactly when the finding passes Validate
(the constructed issue record itself does not influence the traced events). -/
def Transform (f : UBSFinding) : Option Unit :=
  if Validate f then some () else none

/-- The observable steps of one executeActions run.  Tracker events carry the
fingerprint of the finding the action concerns and whether the bd call
succeeded; logWrite stands for a row written to operation_log. -/
inductive SyncEvent where
  | trackerCreate (fingerprint : GoStr) (success : Bool)
  | trackerUpdate (fingerprint issueID : GoStr) (priority : Nat) (success : Bool)
  | trackerClose (fingerprint issueID : GoStr) (success : Bool)
  | logWrite (operation fingerprint status : GoStr)
  | storeWrite (fingerprint : GoStr)
  | markResolvedWrite (fingerprint : GoStr)
deriving DecidableEq

/-- The external tracker (the bd CLI) as a black box: create returns the
assigned issue id or fails, update and close succeed or fail. -/
structure TrackerBehavior where
  createResult : UBSFinding → Option GoStr
  updateResult : GoStr → Nat → Bool
  closeResult : GoStr → Bool

/-- The running state of executeActions: the events so far, the findings
table, and the accumulated failure flag. -/
structure ExecState where
  events : List SyncEvent
  table : FindingsTable
  hasErrors : Bool
deriving DecidableEq

/-- The body of the create loop of executeActions: transform the finding
(skip it and set the failure flag when that fails), skip the call under
dry-run, invoke bd create, and on success store the new row with
first_seen = last_seen = now. -/
def processNewFinding (dryRun : Bool) (tracker : TrackerBehavior) (hash : GoStr → GoStr)
    (now : Nat) (s : ExecState) (finding : UBSFinding) : ExecState :=
  match Transform finding with
  | none => { s with hasErrors := true }
  | some _ =>
    if dryRun then s
    else
      match tracker.createResult finding with
      | none =>
        { s with events := s.events ++ [.trackerCreate (fpOf hash finding) false],
                 hasErrors := true }
      | some issueID =>
        let fp := ComputeFingerprint hash finding.file finding.category finding.message
          finding.codeSnippet finding.line
        let dbFinding : DBFinding :=
          { fingerprint := fp, issueID := issueID, file := finding.file, line := finding.line,
            severity := finding.severity, category := finding.category,
            message := finding.message, firstSeen := now, lastSeen := now, resolvedAt := none }
        { s with events := s.events ++ [.trackerCreate fp true, .storeWrite fp],
                 table := Store s.table dbFinding }

/-- The body of the update loop of executeActions: skip under dry-run, invoke
bd update with the priority derived from the new severity, and on success
store the row with the current scan's data, the previous first_seen and issue
id, and last_seen = now. -/
def processChangedFinding (dryRun : Bool) (tracker : TrackerBehavior) (hash : GoStr → GoStr)
    (now : Nat) (s : ExecState) (change : ChangeRecord) : ExecState :=
  if dryRun then s
  else
    let newPriority := SeverityToPriority change.current.severity
    if tracker.updateResult change.previous.issueID newPriority then
      let fp := ComputeFingerprint hash change.current.file change.current.category
        change.current.message change.current.codeSnippet change.current.line
      let dbFinding : DBFinding :=
        { fingerprint := fp, issueID := change.previous.issueID, file := change.current.file,
          line := change.current.line, severity := change.current.severity,
          category := change.current.category, message := change.current.message,
          firstSeen := change.previous.firstSeen, lastSeen := now, resolvedAt := none }
      let evs : List SyncEvent :=
        [.trackerUpdate change.previous.fingerprint change.previous.issueID newPriority true,
         .storeWrite fp]
      { s with events := s.events ++ evs, table := Store s.table dbFinding }
    else
      let evs : List SyncEvent :=
        [.trackerUpdate change.previous.fingerprint change.previous.issueID newPriority false]
      { s with events := s.events ++ evs, hasErrors := true }

/-- The body of the close loop of executeActions (run only when auto-close is
enabled): skip under dry-run, invoke bd close, and on success mark the row
resolved at now; a MarkResolved failure sets the failure flag. -/
def processResolvedFinding (dryRun : Bool) (tracker : TrackerBehavior) (now : Nat)
    (s : ExecState) (resolved : DBFinding) : ExecState :=
  if dryRun then s
  else if tracker.closeResult resolved.issueID then
    let marked := MarkResolved s.table resolved.fingerprint now
    let evs : List SyncEvent :=
      [.trackerClose resolved.fingerprint resolved.issueID true,
       .markResolvedWrite resolved.fingerprint]
    let newTable := marked.1
    let newErrors := s.hasErrors || decide (marked.2 ≠ MarkResolvedOutcome.ok)
    { s with events := s.events ++ evs, table := newTable, hasErrors := newErrors }
  else
    { s with events := s.events ++ [.trackerClose resolved.fingerprint resolved.issueID false],
             hasErrors := true }

/-- Models executeActions (cmd/strung/sync.go): the create loop over New,
then the update loop over Changed, then - only when auto-close is enabled -
the close loop over Resolved; the exit code is ExitSyncError 3 when any item
failed and ExitSyncSuccess 0 otherwise. -/
def executeActions (dryRun autoClose : Bool) (tracker : TrackerBehavior)
    (hash : GoStr → GoStr) (now : Nat) (tbl : FindingsTable) (result : DiffResult) :
    ExecState × Nat :=
  let s0 : ExecState := { events := [], table := tbl, hasErrors := false }
  let s1 := result.new.foldl (processNewFinding dryRun tracker hash now) s0
  let s2 := result.changed.foldl (processChangedFinding dryRun tracker hash now) s1
  let s3 := if autoClose then
    result.resolved.foldl (processResolvedFinding dryRun tracker now) s2
  else s2
  (s3, if s3.hasErrors then 3 else 0)

/-- Is the event a mutating action against the external tracker? -/
def eventIsTrackerMutation : SyncEvent → Bool
  | .trackerCreate _ _ => true
  | .trackerUpdate _ _ _ _ => true
  | .trackerClose _ _ _ => true
  | _ => false

/-- The fingerprint an event concerns. -/
def eventFingerprint : SyncEvent → GoStr
  | .trackerCreate fp _ => fp
  | .trackerUpdate fp _ _ _ => fp
  | .trackerClose fp _ _ => fp
  | .logWrite _ fp _ => fp
  | .storeWrite fp => fp
  | .markResolvedWrite fp => fp

/-- Is the event a pending operation-log entry for the fingerprint? -/
def isPendingLogFor (fp : GoStr) : SyncEvent → Bool
  | .logWrite _ fp2 status => decide (fp2 = fp) && decide (status = gostr "pending")
  | _ => false

/-- Is the event an operation-log status transition to completed or failed
for the fingerprint? -/
def isFinalLogFor (fp : GoStr) : SyncEvent → Bool
  | .logWrite _ fp2 status =>
    decide (fp2 = fp) && (decide (status = gostr "completed") || decide (status = gostr "failed"))
  | _ => false

/-- The operation-logging invariant the spec states for a sync run: every
mutating tracker action is preceded by a pending operation-log entry for its
fingerprint and followed by a transition of that log entry to completed or
failed. -/
def OpLogInvariant (events : List SyncEvent) : Prop :=
  ∀ i : Fin events.length, eventIsTrackerMutation (events.get i) = true →
    (∃ j : Fin events.length, j.val < i.val ∧
      isPendingLogFor (eventFingerprint (events.get i)) (events.get j) = true) ∧
    (∃ k : Fin events.length, i.val < k.val ∧
      isFinalLogFor (eventFingerprint (events.get i)) (events.get k) = true)

instance decOpLogInvariant (events : List SyncEvent) : Decidable (OpLogInvariant events) :=
  inferInstanceAs (Decidable (∀ i : Fin events.length,
    eventIsTrackerMutation (events.get i) = true →
    (∃ j : Fin events.length, j.val < i.val ∧
      isPendingLogFor (eventFingerprint (events.get i)) (events.get j) = true) ∧
    (∃ k : Fin events.length, i.val < k.val ∧
      isFinalLogFor (eventFingerprint (events.get i)) (events.get k) = true)))

/-! ## Auxiliary definitions used by the statements and proofs -/

/-- Is the event a write to the operation_log table? -/
def eventIsLogWrite : SyncEvent → Bool
  | .logWrite _ _ _ => true
  | _ => false

/-- The numeric value of a decimal digit character. -/
def decDigitVal (c : Char) : Nat := c.toNat - 48

/-- The number a string of decimal digits denotes (used to invert
natToDec). -/
def decVal (s : GoStr) : Nat := s.foldl (fun a c => 10 * a + decDigitVal c) 0

/-- The word sequence of a line, each word lowercased: the content of a line
that survives TrimSpace, ToLower and whitespace collapsing.  Two lines with
the same lowerWords differ only in white-space placement or letter case. -/
def lowerWords (line : GoStr) : List GoStr := (fields line).map (List.map goToLower)

/-- Two lines differ only in (intra-line) white space or letter case. -/
def LineWsCaseEquiv (l1 l2 : GoStr) : Prop := lowerWords l1 = lowerWords l2

/-- Two snippets split into the same number of lines and corresponding lines
differ only in white space or letter case. -/
def SnippetWsCaseEquiv (s1 s2 : GoStr) : Prop :=
  List.Forall₂ LineWsCaseEquiv (s1.splitOn '\n') (s2.splitOn '\n')

/-- Two characters are equal, both white space, or equal up to case:
the character-level reading of "differ only in whitespace or letter case". -/
def CharWsCaseCompatible (a b : Char) : Prop :=
  a = b ∨ (isSpace a = true ∧ isSpace b = true) ∨ goToLower a = goToLower b

/-- Two strings of equal length differ only in white space or letter case,
read character by character (the claim's literal relation, which in
particular allows replacing a space with a newline). -/
def DifferOnlyInWsOrCase (s1 s2 : GoStr) : Prop :=
  List.Forall₂ CharWsCaseCompatible s1 s2

/-- A concrete valid scanner finding, used to evaluate executeActions on a
run with one New finding. -/
def sampleFinding : UBSFinding :=
  { file := gostr "a.ts", line := 42, column := 0, severity := gostr "critical",
    category := gostr "nil-deref", message := gostr "possible nil dereference",
    suggestion := [], codeSnippet := [] }

/-- A tracker on which every bd call succeeds (create assigns the id bd-1). -/
def sampleTracker : TrackerBehavior :=
  { createResult := fun _ => some (gostr "bd-1"), updateResult := fun _ _ => true,
    closeResult := fun _ => true }

/-- One real (not dry-run) executeActions run over a diff with exactly one
New finding, against an empty store, with every tracker call succeeding. -/
def sampleRun : ExecState × Nat :=
  executeActions false false sampleTracker id 100 []
    { new := [sampleFinding], changed := [], resolved := [] }

/-- A concrete stored finding, used to exercise the Transaction helper. -/
def sampleDBFinding : DBFinding :=
  { fingerprint := gostr "fp-1", issueID := gostr "bd-1", file := gostr "a.ts", line := 42,
    severity := gostr "critical", category := gostr "nil-deref",
    message := gostr "possible nil dereference", firstSeen := 100, lastSeen := 100,
    resolvedAt := none }

/-! ## Lemmas: decimal rendering -/

theorem decDigitVal_digitChar {n : Nat} (h : n < 10) : decDigitVal (digitChar n) = n := by
  interval_cases n <;> rfl

theorem decVal_append_singleton (s : GoStr) (c : Char) :
    decVal (s ++ [c]) = 10 * decVal s + decDigitVal c := by
  simp [decVal, List.foldl_append]

theorem decVal_natToDecAux {fuel n : Nat} (h : n < 10 ^ fuel) :
    decVal (natToDecAux fuel n) = n := by
  induction fuel generalizing n with
  | zero =>
    simp only [pow_zero, Nat.lt_one_iff] at h
    subst h
    rfl
  | succ fuel ih =>
    rw [natToDecAux]
    by_cases h10 : n < 10
    · simp only [h10, if_true]
      simp [decVal, decDigitVal_digitChar h10]
    · simp only [h10, if_false]
      rw [decVal_append_singleton, ih, decDigitVal_digitChar (Nat.mod_lt n (by norm_num))]
      · omega
      · rw [pow_succ] at h
        exact (Nat.div_lt_iff_lt_mul (by norm_num)).mpr h

theorem decVal_natToDec (n : Nat) : decVal (natToDec n) = n := by
  apply decVal_natToDecAux
  calc n < 2 ^ n := Nat.lt_two_pow n
    _ ≤ 10 ^ n := Nat.pow_le_pow_left (by norm_num) n
    _ ≤ 10 ^ (n + 1) := Nat.pow_le_pow_right (by norm_num) (Nat.le_succ n)

theorem natToDec_injective : Function.Injective natToDec := by
  intro a b h
  have := congrArg decVal h
  rwa [decVal_natToDec, decVal_natToDec] at this

theorem natToDec_ne_nil (n : Nat) : natToDec n ≠ [] := by
  rw [natToDec, natToDecAux]
  by_cases h10 : n < 10 <;> simp [h10]

theorem natToDec_length_pos (n : Nat) : 0 < (natToDec n).length :=
  List.length_pos.mpr (natToDec_ne_nil n)

/-! ## Lemmas: the hash input -/

theorem fingerprintInput_snippet_line_irrelevant (file category message s : GoStr)
    (l1 l2 : Nat) (hs : s ≠ []) :
    fingerprintInput file category message s l1 = fingerprintInput file category message s l2 := by
  simp [fingerprintInput, hs]

theorem fingerprintInput_empty_line_injective (file category message : GoStr) {l1 l2 : Nat}
    (hl : l1 ≠ l2) :
    fingerprintInput file category message [] l1 ≠ fingerprintInput file category message [] l2 := by
  intro heq
  simp only [fingerprintInput, ne_eq, not_true_eq_false, if_false, List.append_assoc] at heq
  have h1 := List.append_cancel_left heq
  have h2 := List.append_cancel_left h1
  exact hl (natToDec_injective (List.append_cancel_right h2))

theorem fingerprintInput_snippet_category_injective (file message s : GoStr) {c1 c2 : GoStr}
    (hs : s ≠ []) (hc : c1 ≠ c2) (l : Nat) :
    fingerprintInput file c1 message s l ≠ fingerprintInput file c2 message s l := by
  intro heq
  simp only [fingerprintInput, ne_eq, hs, not_false_eq_true, if_true, List.append_assoc] at heq
  have h1 := List.append_cancel_left heq
  have h2 := List.append_cancel_left h1
  exact hc (List.append_cancel_right h2)

theorem fingerprintInput_emptyContext_ne_emptySnippet (file category message s : GoStr)
    (hs : s ≠ []) (hctx : normalizeCodeContext s = []) (l1 l2 : Nat) :
    fingerprintInput file category message s l1 ≠ fingerprintInput file category message [] l2 := by
  intro heq
  have hlen := congrArg List.length heq
  have hcolon : (gostr ":").length = 1 := rfl
  simp only [fingerprintInput, ne_eq, hs, not_false_eq_true, if_true, not_true_eq_false,
    if_false, List.length_append, hctx, hcolon, List.length_nil] at hlen
  have := natToDec_length_pos l2
  omega

/-! ## Lemmas: white space, fields and normalization -/

theorem isSpace_goToLower (c : Char) : isSpace (goToLower c) = isSpace c := by
  unfold goToLower
  split <;> rfl

theorem filter_replicate_nil (n : Nat) :
    (List.replicate n ([] : GoStr)).filter (fun w => decide (w ≠ [])) = [] := by
  induction n with
  | zero => rfl
  | succ n ih => simp [List.replicate_succ, List.filter_cons, ih]

theorem modifyHead_append_left {α : Type} (f : α → α) (l1 l2 : List α) (h : l1 ≠ []) :
    List.modifyHead f (l1 ++ l2) = List.modifyHead f l1 ++ l2 := by
  cases l1 with
  | nil => exact absurd rfl h
  | cons a l => rfl

theorem splitOnP_allP {t : GoStr} (h : ∀ c ∈ t, isSpace c = true) :
    List.splitOnP isSpace t = List.replicate (t.length + 1) [] := by
  induction t with
  | nil => rfl
  | cons c t ih =>
    rw [List.splitOnP_cons, if_pos (h c (List.mem_cons_self c t)),
      ih (fun x hx => h x (List.mem_cons_of_mem _ hx))]
    simp [List.replicate_succ]

theorem splitOnP_append_allP {s t : GoStr} (h : ∀ c ∈ t, isSpace c = true) :
    List.splitOnP isSpace (s ++ t) = List.splitOnP isSpace s ++ List.replicate t.length [] := by
  induction s with
  | nil =>
    simpa [List.splitOnP_nil, List.replicate_succ] using splitOnP_allP h
  | cons c s ih =>
    by_cases hc : isSpace c
    · simp only [List.cons_append, List.splitOnP_cons, hc, if_true, ih]
    · simp only [List.cons_append, List.splitOnP_cons, hc, if_false, ih, Bool.false_eq_true]
      rw [modifyHead_append_left _ _ _ (List.splitOnP_ne_nil _ _)]

theorem fields_append_allP {s t : GoStr} (h : ∀ c ∈ t, isSpace c = true) :
    fields (s ++ t) = fields s := by
  rw [fields, splitOnP_append_allP h, List.filter_append, fields, filter_replicate_nil,
    List.append_nil]

theorem fields_cons_space {c : Char} (hc : isSpace c = true) (l : GoStr) :
    fields (c :: l) = fields l := by
  rw [fields, List.splitOnP_cons, if_pos hc]
  simp [fields]

theorem fields_dropWhile (l : GoStr) : fields (l.dropWhile isSpace) = fields l := by
  induction l with
  | nil => rfl
  | cons c l ih =>
    by_cases hc : isSpace c
    · rw [List.dropWhile_cons, if_pos hc, ih, fields_cons_space hc]
    · rw [List.dropWhile_cons, if_neg hc]

theorem rdropWhile_append_rtakeWhile (p : Char → Bool) (l : GoStr) :
    l.rdropWhile p ++ l.rtakeWhile p = l := by
  rw [List.rdropWhile, List.rtakeWhile, ← List.reverse_append,
    List.takeWhile_append_dropWhile, List.reverse_reverse]

theorem fields_rdropWhile (l : GoStr) : fields (l.rdropWhile isSpace) = fields l := by
  conv_rhs => rw [← rdropWhile_append_rtakeWhile isSpace l]
  exact (fields_append_allP (fun c hc => List.mem_rtakeWhile_imp hc)).symm

theorem fields_trimSpace (l : GoStr) : fields (trimSpace l) = fields l := by
  rw [trimSpace, fields_rdropWhile, fields_dropWhile]

theorem map_modifyHead_cons (c : Char) (L : List GoStr) :
    (List.modifyHead (List.cons c) L).map (List.map goToLower) =
      List.modifyHead (List.cons (goToLower c)) (L.map (List.map goToLower)) := by
  cases L <;> rfl

theorem splitOnP_map_goToLower (l : GoStr) :
    List.splitOnP isSpace (l.map goToLower) = (List.splitOnP isSpace l).map (List.map goToLower) := by
  induction l with
  | nil => rfl
  | cons c l ih =>
    rw [List.map_cons, List.splitOnP_cons, List.splitOnP_cons, isSpace_goToLower]
    by_cases hc : isSpace c
    · rw [if_pos hc, if_pos hc, ih]
      rfl
    · rw [if_neg hc, if_neg hc, ih, map_modifyHead_cons]

theorem fields_map_goToLower (l : GoStr) :
    fields (l.map goToLower) = (fields l).map (List.map goToLower) := by
  rw [fields, splitOnP_map_goToLower, fields, List.filter_map]
  congr 1
  apply List.filter_congr
  intro w _
  simp [Function.comp]

theorem normLine_eq_intercalate_lowerWords (l : GoStr) :
    normLine l = List.intercalate (gostr " ") (lowerWords l) := by
  simp only [normLine, lowerWords]
  rw [fields_map_goToLower, fields_trimSpace]

theorem normLine_congr {l1 l2 : GoStr} (h : LineWsCaseEquiv l1 l2) : normLine l1 = normLine l2 := by
  have h2 : lowerWords l1 = lowerWords l2 := h
  rw [normLine_eq_intercalate_lowerWords, normLine_eq_intercalate_lowerWords, h2]

theorem normLine_allspace {l : GoStr} (h : ∀ c ∈ l, isSpace c = true) : normLine l = [] := by
  simp only [normLine]
  rw [trimSpace, List.dropWhile_eq_nil_iff.mpr h, List.rdropWhile_nil]
  rfl

theorem mem_of_mem_splitOnP {p : Char → Bool} :
    ∀ {s piece : GoStr}, piece ∈ List.splitOnP p s → ∀ {c : Char}, c ∈ piece → c ∈ s := by
  intro s
  induction s with
  | nil =>
    intro piece hp c hc
    rw [List.splitOnP_nil, List.mem_singleton] at hp
    subst hp
    simp at hc
  | cons x xs ih =>
    intro piece hp c hc
    rw [List.splitOnP_cons] at hp
    by_cases hx : p x
    · rw [if_pos hx] at hp
      rcases List.mem_cons.mp hp with h | h
      · subst h; simp at hc
      · exact List.mem_cons_of_mem _ (ih h hc)
    · rw [if_neg hx] at hp
      cases hL : List.splitOnP p xs with
      | nil => exact absurd hL (List.splitOnP_ne_nil p xs)
      | cons a L =>
        rw [hL] at hp
        simp only [List.modifyHead] at hp
        rcases List.mem_cons.mp hp with h | h
        · subst h
          rcases List.mem_cons.mp hc with h | h
          · subst h; exact List.mem_cons_self _ _
          · exact List.mem_cons_of_mem _ (ih (hL ▸ List.mem_cons_self a L) h)
        · exact List.mem_cons_of_mem _ (ih (hL ▸ List.mem_cons_of_mem a h) hc)

theorem normalizeCodeContext_allspace {s : GoStr} (h : ∀ c ∈ s, isSpace c = true) :
    normalizeCodeContext s = [] := by
  simp only [normalizeCodeContext]
  have hlines : ∀ piece ∈ s.splitOn '\n', normLine piece = [] := by
    intro piece hp
    apply normLine_allspace
    intro c hc
    rw [List.splitOn] at hp
    exact h c (mem_of_mem_splitOnP hp hc)
  have hsel : ∀ piece ∈ (if (s.splitOn '\n').length ≤ 6 then s.splitOn '\n' else
      (s.splitOn '\n').take 3 ++ (s.splitOn '\n').drop ((s.splitOn '\n').length - 3)),
      normLine piece = [] := by
    intro piece hp
    by_cases h6 : (s.splitOn '\n').length ≤ 6
    · rw [if_pos h6] at hp
      exact hlines piece hp
    · rw [if_neg h6] at hp
      rcases List.mem_append.mp hp with h | h
      · exact hlines piece (List.take_subset _ _ h)
      · exact hlines piece (List.drop_subset _ _ h)
  have hfil : (((if (s.splitOn '\n').length ≤ 6 then s.splitOn '\n' else
      (s.splitOn '\n').take 3 ++ (s.splitOn '\n').drop ((s.splitOn '\n').length - 3)).map
        normLine).filter (fun l => decide (l ≠ []))) = [] := by
    rw [List.filter_eq_nil_iff]
    intro a ha
    rcases List.mem_map.mp ha with ⟨piece, hp, rfl⟩
    simp [hsel piece hp]
  rw [hfil]
  rfl

theorem map_normLine_eq_of_forall₂ {L1 L2 : List GoStr}
    (h : List.Forall₂ LineWsCaseEquiv L1 L2) : L1.map normLine = L2.map normLine := by
  induction h with
  | nil => rfl
  | cons h1 _ ih => simp only [List.map_cons, normLine_congr h1, ih]

theorem normalizeCodeContext_congr {s1 s2 : GoStr} (h : SnippetWsCaseEquiv s1 s2) :
    normalizeCodeContext s1 = normalizeCodeContext s2 := by
  have hf : List.Forall₂ LineWsCaseEquiv (s1.splitOn '\n') (s2.splitOn '\n') := h
  have hlen : (s1.splitOn '\n').length = (s2.splitOn '\n').length := hf.length_eq
  have hsel : (if (s1.splitOn '\n').length ≤ 6 then s1.splitOn '\n' else
        (s1.splitOn '\n').take 3 ++ (s1.splitOn '\n').drop ((s1.splitOn '\n').length - 3)).map
          normLine =
      (if (s2.splitOn '\n').length ≤ 6 then s2.splitOn '\n' else
        (s2.splitOn '\n').take 3 ++ (s2.splitOn '\n').drop ((s2.splitOn '\n').length - 3)).map
          normLine := by
    by_cases h6 : (s2.splitOn '\n').length ≤ 6
    · rw [if_pos h6, if_pos (hlen ▸ h6)]
      exact map_normLine_eq_of_forall₂ hf
    · rw [if_neg h6, if_neg (hlen ▸ h6), hlen]
      exact map_normLine_eq_of_forall₂
        (List.rel_append (List.forall₂_take 3 hf)
          (hlen ▸ List.forall₂_drop ((s2.splitOn '\n').length - 3) hf))
  simp only [normalizeCodeContext]
  rw [hsel]

/-! ## Lemmas: Go maps as association lists -/

theorem lookupKV_nil {α : Type} (k : GoStr) : lookupKV ([] : List (GoStr × α)) k = none := rfl

theorem lookupKV_cons {α : Type} (e : GoStr × α) (m : List (GoStr × α)) (k : GoStr) :
    lookupKV (e :: m) k = if e.1 = k then some e.2 else lookupKV m k := by
  by_cases h : e.1 = k
  · rw [lookupKV, List.find?_cons_of_pos _ (by simp [h]), if_pos h]
    rfl
  · rw [lookupKV, List.find?_cons_of_neg _ (by simp [h]), if_neg h]
    rfl

theorem lookupKV_map_replace_ne {α : Type} (m : List (GoStr × α)) (k k' : GoStr) (v : α)
    (hne : k' ≠ k) :
    lookupKV (m.map (fun e => if e.1 = k then (k, v) else e)) k' = lookupKV m k' := by
  induction m with
  | nil => rfl
  | cons e m ih =>
    rw [List.map_cons, lookupKV_cons, lookupKV_cons]
    by_cases he : e.1 = k
    · rw [if_pos he]
      have hkk : ¬ (k = k') := fun h => hne h.symm
      rw [if_neg hkk, if_neg (he ▸ hkk), ih]
    · rw [if_neg he]
      by_cases hk' : e.1 = k'
      · rw [if_pos hk', if_pos hk']
      · rw [if_neg hk', if_neg hk', ih]

theorem lookupKV_map_replace_eq {α : Type} (m : List (GoStr × α)) (k : GoStr) (v : α)
    (hany : m.any (fun e => decide (e.1 = k)) = true) :
    lookupKV (m.map (fun e => if e.1 = k then (k, v) else e)) k = some v := by
  induction m with
  | nil =>
    rw [List.any_nil] at hany
    exact absurd hany Bool.false_ne_true
  | cons e m ih =>
    rw [List.map_cons, lookupKV_cons]
    by_cases he : e.1 = k
    · rw [if_pos he, if_pos rfl]
    · rw [if_neg he, if_neg he]
      apply ih
      rw [List.any_cons] at hany
      have hfe : decide (e.1 = k) = false := by simp [he]
      rwa [hfe, Bool.false_or] at hany

theorem lookupKV_insertKV {α : Type} (m : List (GoStr × α)) (k k' : GoStr) (v : α) :
    lookupKV (insertKV m k v) k' = if k' = k then some v else lookupKV m k' := by
  rw [insertKV]
  by_cases hk : m.any (fun e => decide (e.1 = k)) = true
  · rw [if_pos hk]
    by_cases hkk : k' = k
    · subst hkk
      rw [if_pos rfl, lookupKV_map_replace_eq m k' v hk]
    · rw [if_neg hkk, lookupKV_map_replace_ne m k k' v hkk]
  · rw [if_neg hk]
    have hall : ∀ e ∈ m, ¬ (decide (e.1 = k) = true) :=
      List.any_eq_false.mp (Bool.eq_false_iff.mpr hk)
    by_cases hkk : k' = k
    · subst hkk
      have hnone : m.find? (fun e => decide (e.1 = k')) = none :=
        List.find?_eq_none.mpr hall
      rw [if_pos rfl, lookupKV, List.find?_append, hnone, Option.none_or,
        List.find?_cons_of_pos _ (by simp)]
      rfl
    · have hsingle : ([((k, v) : GoStr × α)]).find? (fun e => decide (e.1 = k')) = none := by
        apply List.find?_eq_none.mpr
        intro x hx
        rw [List.mem_singleton] at hx
        subst hx
        simp only [decide_eq_true_eq]
        exact fun h => hkk h.symm
      rw [if_neg hkk, lookupKV, List.find?_append, hsingle, Option.or_none]
      rfl

theorem keys_insertKV_of_any {α : Type} (m : List (GoStr × α)) (k : GoStr) (v : α)
    (hk : m.any (fun e => decide (e.1 = k)) = true) :
    (insertKV m k v).map Prod.fst = m.map Prod.fst := by
  rw [insertKV, if_pos hk, List.map_map]
  apply List.map_congr_left
  intro e _
  by_cases h : e.1 = k
  · simp [Function.comp, h]
  · simp [Function.comp, h]

theorem nodupKeys_insertKV {α : Type} (m : List (GoStr × α)) (k : GoStr) (v : α)
    (h : (m.map Prod.fst).Nodup) : ((insertKV m k v).map Prod.fst).Nodup := by
  by_cases hk : m.any (fun e => decide (e.1 = k)) = true
  · rw [keys_insertKV_of_any m k v hk]
    exact h
  · rw [insertKV, if_neg hk, List.map_append, List.nodup_append]
    refine ⟨h, List.nodup_singleton _, ?_⟩
    intro x hx hx2
    have hall : ∀ e ∈ m, ¬ (decide (e.1 = k) = true) :=
      List.any_eq_false.mp (Bool.eq_false_iff.mpr hk)
    rcases List.mem_map.mp hx with ⟨e, hem, hek⟩
    rw [List.map_singleton, List.mem_singleton] at hx2
    exact hall e hem (by simp [hek, hx2])

theorem nodupKeys_buildMap {α : Type} (keyOf : α → GoStr) (xs : List α) :
    ((buildMap keyOf xs).map Prod.fst).Nodup := by
  suffices h : ∀ m : List (GoStr × α), (m.map Prod.fst).Nodup →
      ((xs.foldl (fun m x => insertKV m (keyOf x) x) m).map Prod.fst).Nodup by
    exact h [] (by simp)
  induction xs with
  | nil => intro m hm; exact hm
  | cons x xs ih =>
    intro m hm
    exact ih _ (nodupKeys_insertKV _ _ _ hm)

theorem entry_key_insertKV {α : Type} (keyOf : α → GoStr) (m : List (GoStr × α)) (v : α)
    (hm : ∀ e ∈ m, e.1 = keyOf e.2) :
    ∀ e ∈ insertKV m (keyOf v) v, e.1 = keyOf e.2 := by
  intro e he
  rw [insertKV] at he
  by_cases hk : m.any (fun x => decide (x.1 = keyOf v)) = true
  · rw [if_pos hk] at he
    rcases List.mem_map.mp he with ⟨e0, he0, rfl⟩
    by_cases h : e0.1 = keyOf v
    · simp [h]
    · simpa [h] using hm e0 he0
  · rw [if_neg hk] at he
    rcases List.mem_append.mp he with h | h
    · exact hm e h
    · rw [List.mem_singleton] at h
      subst h
      rfl

theorem entry_key_buildMap {α : Type} (keyOf : α → GoStr) (xs : List α) :
    ∀ e ∈ buildMap keyOf xs, e.1 = keyOf e.2 := by
  suffices h : ∀ m : List (GoStr × α), (∀ e ∈ m, e.1 = keyOf e.2) →
      ∀ e ∈ xs.foldl (fun m x => insertKV m (keyOf x) x) m, e.1 = keyOf e.2 by
    exact h [] (by simp)
  induction xs with
  | nil => intro m hm; exact hm
  | cons x xs ih =>
    intro m hm
    exact ih _ (entry_key_insertKV keyOf m x hm)

theorem mem_iff_lookupKV {α : Type} {m : List (GoStr × α)} (hnd : (m.map Prod.fst).Nodup)
    (k : GoStr) (v : α) : (k, v) ∈ m ↔ lookupKV m k = some v := by
  induction m with
  | nil => simp [lookupKV]
  | cons e m ih =>
    rw [List.map_cons, List.nodup_cons] at hnd
    obtain ⟨hknotin, hnd2⟩ := hnd
    rw [lookupKV_cons, List.mem_cons]
    by_cases h : e.1 = k
    · rw [if_pos h]
      constructor
      · rintro (heq | hm)
        · rw [← heq]
        · exact absurd (List.mem_map.mpr ⟨(k, v), hm, h.symm ▸ rfl⟩) (h ▸ hknotin)
      · intro hs
        left
        obtain ⟨e1, e2⟩ := e
        obtain rfl : e2 = v := Option.some_injective _ hs
        have h1 : e1 = k := h
        subst h1
        rfl
    · rw [if_neg h]
      constructor
      · rintro (heq | hm)
        · exact absurd (congrArg Prod.fst heq.symm) h
        · exact (ih hnd2).mp hm
      · intro hs
        exact Or.inr ((ih hnd2).mpr hs)

theorem getLast?_cons_or {β : Type} (x : β) (l : List β) :
    (x :: l).getLast? = l.getLast?.or (some x) := by
  induction l generalizing x with
  | nil => rfl
  | cons b bs ih =>
    rw [List.getLast?_cons_cons, ih b, Option.or_assoc]
    rfl

theorem lookupKV_buildMap_foldl {α : Type} (keyOf : α → GoStr) (k : GoStr) :
    ∀ (xs : List α) (m : List (GoStr × α)),
      lookupKV (xs.foldl (fun m x => insertKV m (keyOf x) x) m) k =
        ((xs.filter (fun x => decide (keyOf x = k))).getLast?).or (lookupKV m k) := by
  intro xs
  induction xs with
  | nil => intro m; simp
  | cons x xs ih =>
    intro m
    rw [List.foldl_cons, ih, lookupKV_insertKV, List.filter_cons]
    by_cases hx : keyOf x = k
    · have hd : decide (keyOf x = k) = true := by simp [hx]
      rw [if_pos hd, getLast?_cons_or, Option.or_assoc, if_pos hx.symm]
      rfl
    · have hd : ¬ (decide (keyOf x = k) = true) := by simp [hx]
      rw [if_neg hd, if_neg (fun (h : k = keyOf x) => hx h.symm)]

theorem lookupKV_buildMap {α : Type} (keyOf : α → GoStr) (xs : List α) (k : GoStr) :
    lookupKV (buildMap keyOf xs) k =
      (xs.filter (fun x => decide (keyOf x = k))).getLast? := by
  rw [buildMap, lookupKV_buildMap_foldl, lookupKV_nil, Option.or_none]

/-! ## Lemmas: the diff classification -/

theorem diff_new_mem (hash : GoStr → GoStr) (cf : List UBSFinding) (dbf : List DBFinding)
    (f : UBSFinding) :
    f ∈ (Diff hash cf dbf).new ↔
      lookupKV (buildCurrentMap hash cf) (fpOf hash f) = some f ∧
      lookupKV (buildDbMap dbf) (fpOf hash f) = none := by
  have hexpand : (Diff hash cf dbf).new = (buildCurrentMap hash cf).filterMap (fun e =>
      match lookupKV (buildDbMap dbf) e.1 with
      | none => some e.2
      | some _ => none) := rfl
  rw [hexpand, List.mem_filterMap]
  constructor
  · rintro ⟨⟨k, v⟩, he, hge⟩
    rcases hdb : lookupKV (buildDbMap dbf) k with _ | prev
    · rw [hdb] at hge
      have hge2 : some v = some f := hge
      have hvf : v = f := Option.some_injective _ hge2
      have hkey : k = fpOf hash v := entry_key_buildMap (fpOf hash) cf ⟨k, v⟩ he
      rw [← hvf, ← hkey]
      exact ⟨(mem_iff_lookupKV (nodupKeys_buildMap _ _) _ _).mp he, hdb⟩
    · rw [hdb] at hge
      have hge2 : (none : Option UBSFinding) = some f := hge
      exact absurd hge2 (by simp)
  · rintro ⟨hc, hdbn⟩
    refine ⟨(fpOf hash f, f), (mem_iff_lookupKV (nodupKeys_buildMap _ _) _ _).mpr hc, ?_⟩
    have h0 : lookupKV (buildDbMap dbf) ((fpOf hash f, f) : GoStr × UBSFinding).1 = none := hdbn
    rw [h0]

theorem diff_changed_mem (hash : GoStr → GoStr) (cf : List UBSFinding) (dbf : List DBFinding)
    (cr : ChangeRecord) :
    cr ∈ (Diff hash cf dbf).changed ↔
      lookupKV (buildCurrentMap hash cf) (fpOf hash cr.current) = some cr.current ∧
      lookupKV (buildDbMap dbf) (fpOf hash cr.current) = some cr.previous ∧
      cr.previous.severity ≠ cr.current.severity := by
  have hexpand : (Diff hash cf dbf).changed = (buildCurrentMap hash cf).filterMap (fun e =>
      match lookupKV (buildDbMap dbf) e.1 with
      | none => none
      | some previous =>
        if previous.severity ≠ e.2.severity then some ⟨previous, e.2⟩ else none) := rfl
  rw [hexpand, List.mem_filterMap]
  constructor
  · rintro ⟨⟨k, v⟩, he, hge⟩
    rcases hdb : lookupKV (buildDbMap dbf) k with _ | prev
    · rw [hdb] at hge
      have hge2 : (none : Option ChangeRecord) = some cr := hge
      exact absurd hge2 (by simp)
    · rw [hdb] at hge
      have hge2 : (if prev.severity ≠ v.severity then some (⟨prev, v⟩ : ChangeRecord) else none)
          = some cr := hge
      by_cases hs : prev.severity ≠ v.severity
      · rw [if_pos hs] at hge2
        obtain rfl : (⟨prev, v⟩ : ChangeRecord) = cr := Option.some_injective _ hge2
        have hkey : k = fpOf hash v := entry_key_buildMap (fpOf hash) cf ⟨k, v⟩ he
        subst hkey
        exact ⟨(mem_iff_lookupKV (nodupKeys_buildMap _ _) _ _).mp he, hdb, hs⟩
      · rw [if_neg hs] at hge2
        exact absurd hge2 (by simp)
  · rintro ⟨hc, hdbp, hs⟩
    refine ⟨(fpOf hash cr.current, cr.current),
      (mem_iff_lookupKV (nodupKeys_buildMap _ _) _ _).mpr hc, ?_⟩
    have h0 : lookupKV (buildDbMap dbf)
        ((fpOf hash cr.current, cr.current) : GoStr × UBSFinding).1 = some cr.previous := hdbp
    rw [h0]
    show (if cr.previous.severity ≠ cr.current.severity then
      some (ChangeRecord.mk cr.previous cr.current) else none) = some cr
    rw [if_pos hs]

theorem diff_resolved_mem (hash : GoStr → GoStr) (cf : List UBSFinding) (dbf : List DBFinding)
    (p : DBFinding) :
    p ∈ (Diff hash cf dbf).resolved ↔
      lookupKV (buildDbMap dbf) p.fingerprint = some p ∧
      lookupKV (buildCurrentMap hash cf) p.fingerprint = none := by
  have hexpand : (Diff hash cf dbf).resolved = (buildDbMap dbf).filterMap (fun e =>
      match lookupKV (buildCurrentMap hash cf) e.1 with
      | none => some e.2
      | some _ => none) := rfl
  rw [hexpand, List.mem_filterMap]
  constructor
  · rintro ⟨⟨k, v⟩, he, hge⟩
    rcases hc : lookupKV (buildCurrentMap hash cf) k with _ | cur
    · rw [hc] at hge
      have hge2 : some v = some p := hge
      have hvp : v = p := Option.some_injective _ hge2
      have hkey : k = v.fingerprint := entry_key_buildMap (fun f : DBFinding => f.fingerprint) dbf
        ⟨k, v⟩ (show (k, v) ∈ buildMap (fun f : DBFinding => f.fingerprint) dbf from he)
      rw [← hvp, ← hkey]
      exact ⟨(mem_iff_lookupKV (nodupKeys_buildMap _ _) _ _).mp he, hc⟩
    · rw [hc] at hge
      have hge2 : (none : Option DBFinding) = some p := hge
      exact absurd hge2 (by simp)
  · rintro ⟨hdbp, hcn⟩
    refine ⟨(p.fingerprint, p), (mem_iff_lookupKV (nodupKeys_buildMap _ _) _ _).mpr hdbp, ?_⟩
    have h0 : lookupKV (buildCurrentMap hash cf)
        ((p.fingerprint, p) : GoStr × DBFinding).1 = none := hcn
    rw [h0]

theorem lookupKV_currentMap_lastWins (hash : GoStr → GoStr) (cf : List UBSFinding) (k : GoStr) :
    lookupKV (buildCurrentMap hash cf) k =
      (cf.filter (fun f => decide (fpOf hash f = k))).getLast? :=
  lookupKV_buildMap (fpOf hash) cf k

/-! ## Lemmas: the findings store -/

theorem find?_map_pred {α : Type} (g : α → α) (p : α → Bool) (hp : ∀ x, p (g x) = p x)
    (l : List α) : (l.map g).find? p = (l.find? p).map g := by
  induction l with
  | nil => rfl
  | cons x l ih =>
    rw [List.map_cons]
    by_cases hx : p x = true
    · rw [List.find?_cons_of_pos _ (by rw [hp]; exact hx), List.find?_cons_of_pos _ hx]
      rfl
    · rw [List.find?_cons_of_neg _ (by rw [hp]; exact hx), List.find?_cons_of_neg _ hx, ih]

theorem Get_Store_fresh (tbl : FindingsTable) (f : DBFinding)
    (h : Get tbl f.fingerprint = none) :
    Get (Store tbl f) f.fingerprint = some { f with resolvedAt := none } := by
  have h' : tbl.find? (fun r => decide (r.fingerprint = f.fingerprint)) = none := h
  have hall : ∀ r ∈ tbl, ¬ (decide (r.fingerprint = f.fingerprint) = true) :=
    List.find?_eq_none.mp h'
  have hany : tbl.any (fun r => decide (r.fingerprint = f.fingerprint)) = false :=
    List.any_eq_false.mpr hall
  rw [Store, if_neg (by rw [hany]; exact Bool.false_ne_true)]
  rw [Get, List.find?_append, h', Option.none_or]
  rw [List.find?_cons_of_pos _ (by simp)]

theorem Get_Store_existing (tbl : FindingsTable) (f r : DBFinding)
    (h : Get tbl f.fingerprint = some r) :
    Get (Store tbl f) f.fingerprint =
      some { r with lastSeen := f.lastSeen, severity := f.severity, resolvedAt := none } := by
  have h' : tbl.find? (fun x => decide (x.fingerprint = f.fingerprint)) = some r := h
  have hmem : r ∈ tbl := List.mem_of_find?_eq_some h'
  have hpr0 := List.find?_some h'
  have hpr : decide (r.fingerprint = f.fingerprint) = true := hpr0
  have hany : tbl.any (fun x => decide (x.fingerprint = f.fingerprint)) = true :=
    List.any_eq_true.mpr ⟨r, hmem, hpr⟩
  rw [Store, if_pos hany, Get,
    find?_map_pred _ _ (fun x => by by_cases hx : x.fingerprint = f.fingerprint <;> simp [hx]),
    h', Option.map_some']
  rw [if_pos (of_decide_eq_true hpr)]

/-! ## The claims -/

/-- C2 (counterexample): the claim says a finding with an unrecognized
severity string is included in the filter's output under any
minimum-severity setting; but under minimum critical the filter drops a
finding whose severity bogus is not in the severity map. -/
theorem c2_counterexample_unrecognized_excluded :
    severityLevel (gostr "bogus") = none ∧
    FilterBySeverity
      [{ file := gostr "a.ts", line := 1, column := 0, severity := gostr "bogus",
         category := gostr "x", message := gostr "m", suggestion := [], codeSnippet := [] }]
      (gostr "critical") = [] := by
  decide

/-- C2 (amended): the severity filter keeps exactly the findings whose rank
is at most the minimum's rank under critical 0 < warning 1 < info 2, where
every unrecognized severity string (of a finding or of the minimum) ranks as
the least severe tier 2; so an unrecognized-severity finding is included
exactly when the minimum ranks as the least severe tier, not under any
minimum. -/
theorem c2_filter_keeps_rank_at_most_min (findings : List UBSFinding) (minSeverity : GoStr)
    (f : UBSFinding) :
    f ∈ FilterBySeverity findings minSeverity ↔
      f ∈ findings ∧ sevRank f.severity ≤ sevRank minSeverity := by
  have hrank : ∀ s : GoStr, (severityLevel s).getD 2 = sevRank s := by
    intro s
    rw [severityLevel, sevRank]
    split_ifs <;> rfl
  simp only [FilterBySeverity, List.mem_filter, decide_eq_true_eq, hrank]

/-- C3: with a collision-free digest, the fingerprint of a finding with a
non-empty snippet does not depend on the line number, while with an empty
snippet the line number is part of the hashed input and changing only the
line changes the fingerprint. -/
theorem c3_fingerprint_line_dependence (hash : GoStr → GoStr)
    (hinj : Function.Injective hash) (file category message snippet : GoStr) (l1 l2 : Nat) :
    (snippet ≠ [] → ComputeFingerprint hash file category message snippet l1 =
      ComputeFingerprint hash file category message snippet l2) ∧
    (snippet = [] → l1 ≠ l2 → ComputeFingerprint hash file category message snippet l1 ≠
      ComputeFingerprint hash file category message snippet l2) := by
  constructor
  · intro hs
    exact congrArg hash (fingerprintInput_snippet_line_irrelevant file category message
      snippet l1 l2 hs)
  · intro hs hl heq
    subst hs
    exact fingerprintInput_empty_line_injective file category message hl (hinj heq)

/-- C3 (witness): the two halves of c3_fingerprint_line_dependence at a
concrete finding, with the identity as the (injective) hash. -/
theorem c3_fingerprint_line_dependence_witness :
    ComputeFingerprint id (gostr "a.go") (gostr "cat") (gostr "msg") (gostr "x") 1 =
      ComputeFingerprint id (gostr "a.go") (gostr "cat") (gostr "msg") (gostr "x") 2 ∧
    ComputeFingerprint id (gostr "a.go") (gostr "cat") (gostr "msg") [] 1 ≠
      ComputeFingerprint id (gostr "a.go") (gostr "cat") (gostr "msg") [] 2 := by
  have h1 := c3_fingerprint_line_dependence id Function.injective_id (gostr "a.go")
    (gostr "cat") (gostr "msg") (gostr "x") 1 2
  have h2 := c3_fingerprint_line_dependence id Function.injective_id (gostr "a.go")
    (gostr "cat") (gostr "msg") [] 1 2
  exact ⟨h1.1 (by decide), h2.2 rfl (by decide)⟩

/-- C4 (counterexample): the claim says get after store returns a record
equal to the stored finding up to server-assigned defaults; but on a
conflicting upsert (same fingerprint, line drifted from 1 to 2, new issue
id) the returned record keeps the existing row's issue id (old) and line (1),
not the stored finding's, so it differs from the stored finding even
ignoring the cleared resolution timestamp. -/
theorem c4_counterexample_issueID_kept :
    (Get (Store
        [{ fingerprint := gostr "fp-1", issueID := gostr "old", file := gostr "a.ts", line := 1,
           severity := gostr "warning", category := gostr "x", message := gostr "m",
           firstSeen := 10, lastSeen := 10, resolvedAt := none }]
        { fingerprint := gostr "fp-1", issueID := gostr "new", file := gostr "a.ts", line := 2,
          severity := gostr "critical", category := gostr "x", message := gostr "m",
          firstSeen := 20, lastSeen := 20, resolvedAt := none })
      (gostr "fp-1")).map (fun r => r.issueID) = some (gostr "old") ∧
    (Get (Store
        [{ fingerprint := gostr "fp-1", issueID := gostr "old", file := gostr "a.ts", line := 1,
           severity := gostr "warning", category := gostr "x", message := gostr "m",
           firstSeen := 10, lastSeen := 10, resolvedAt := none }]
        { fingerprint := gostr "fp-1", issueID := gostr "new", file := gostr "a.ts", line := 2,
          severity := gostr "critical", category := gostr "x", message := gostr "m",
          firstSeen := 20, lastSeen := 20, resolvedAt := none })
      (gostr "fp-1")).map (fun r => r.line) = some 1 ∧
    (Get (Store
        [{ fingerprint := gostr "fp-1", issueID := gostr "old", file := gostr "a.ts", line := 1,
           severity := gostr "warning", category := gostr "x", message := gostr "m",
           firstSeen := 10, lastSeen := 10, resolvedAt := none }]
        { fingerprint := gostr "fp-1", issueID := gostr "new", file := gostr "a.ts", line := 2,
          severity := gostr "critical", category := gostr "x", message := gostr "m",
          firstSeen := 20, lastSeen := 20, resolvedAt := none })
      (gostr "fp-1")) ≠
      some { fingerprint := gostr "fp-1", issueID := gostr "new", file := gostr "a.ts", line := 2,
             severity := gostr "critical", category := gostr "x", message := gostr "m",
             firstSeen := 20, lastSeen := 20, resolvedAt := none } := by
  decide

/-- C4 (amended): after store(f) on a state with no record for f's
fingerprint, get returns f with the resolution timestamp cleared (the INSERT
omits it); on a state with an existing record, get returns the existing
record with only last-seen and severity updated to f's and the resolution
timestamp cleared - first-seen, the issue id and every other column of the
existing record are unchanged. -/
theorem c4_store_get_upsert (tbl : FindingsTable) (f : DBFinding) :
    (Get tbl f.fingerprint = none →
      Get (Store tbl f) f.fingerprint = some { f with resolvedAt := none }) ∧
    (∀ r : DBFinding, Get tbl f.fingerprint = some r →
      Get (Store tbl f) f.fingerprint =
        some { r with lastSeen := f.lastSeen, severity := f.severity, resolvedAt := none }) :=
  ⟨Get_Store_fresh tbl f, fun r h => Get_Store_existing tbl f r h⟩

/-- C8: MarkResolved on a fingerprint absent from the store leaves the
findings table unchanged and reaches the not-found error path, but formatting
that error slices fingerprint[:12], which panics for a fingerprint shorter
than 12 bytes instead of returning the error; for a 12-byte absent
fingerprint the not-found error is returned, and for a present fingerprint
the resolution timestamp is set. -/
theorem c8_markResolved_short_fingerprint_panics :
    (MarkResolved [] (gostr "abc") 7).2 = MarkResolvedOutcome.panicSliceBound ∧
    (MarkResolved [] (gostr "abc") 7).2 ≠ MarkResolvedOutcome.notFoundError ∧
    (MarkResolved [] (gostr "abc") 7).1 = [] ∧
    (MarkResolved [] (gostr "aaaabbbbcccc") 7).2 = MarkResolvedOutcome.notFoundError ∧
    (MarkResolved [] (gostr "aaaabbbbcccc") 7).1 = [] ∧
    (MarkResolved [sampleDBFinding] (gostr "fp-1") 7).2 = MarkResolvedOutcome.ok ∧
    (MarkResolved [sampleDBFinding] (gostr "fp-1") 7).1 =
      [{ sampleDBFinding with resolvedAt := some 7 }] := by
  decide

/-- C9: one differ run is a pure read: it returns the store table unchanged,
and a second run against that table produces the identical DiffResult. -/
theorem c9_diff_idempotent (hash : GoStr → GoStr) (tbl : FindingsTable)
    (currentFindings : List UBSFinding) :
    (runDiff hash tbl currentFindings).2 = tbl ∧
    (runDiff hash ((runDiff hash tbl currentFindings).2) currentFindings).1 =
      (runDiff hash tbl currentFindings).1 :=
  ⟨rfl, rfl⟩

/-- C10: a non-empty snippet consisting only of white space takes the
snippet branch with an empty normalized context: the fingerprint ignores the
line number, coincides for all such findings with the same file, category
and message, and (for a collision-free digest) differs from the fingerprint
the same finding gets with the empty snippet string. -/
theorem c10_allwhitespace_snippet (hash : GoStr → GoStr) (hinj : Function.Injective hash)
    (file category message s : GoStr) (hs : s ≠ []) (hws : ∀ c ∈ s, isSpace c = true)
    (l1 l2 : Nat) :
    ComputeFingerprint hash file category message s l1 =
      ComputeFingerprint hash file category message s l2 ∧
    (∀ s2 : GoStr, s2 ≠ [] → (∀ c ∈ s2, isSpace c = true) → ∀ l3 : Nat,
      ComputeFingerprint hash file category message s l1 =
        ComputeFingerprint hash file category message s2 l3) ∧
    ComputeFingerprint hash file category message s l1 ≠
      ComputeFingerprint hash file category message [] l1 := by
  refine ⟨?_, ?_, ?_⟩
  · exact congrArg hash (fingerprintInput_snippet_line_irrelevant file category message
      s l1 l2 hs)
  · intro s2 hs2 hws2 l3
    apply congrArg hash
    simp only [fingerprintInput, ne_eq, hs, hs2, not_false_eq_true, if_true,
      normalizeCodeContext_allspace hws, normalizeCodeContext_allspace hws2]
  · intro heq
    exact fingerprintInput_emptyContext_ne_emptySnippet file category message s hs
      (normalizeCodeContext_allspace hws) l1 l1 (hinj heq)

/-- C10 (witness): c10_allwhitespace_snippet at two concrete all-whitespace
snippets, with the identity as the (injective) hash. -/
theorem c10_allwhitespace_snippet_witness :
    ComputeFingerprint id (gostr "f.go") (gostr "c") (gostr "m") (gostr " \n ") 1 =
      ComputeFingerprint id (gostr "f.go") (gostr "c") (gostr "m") (gostr " \n ") 2 ∧
    ComputeFingerprint id (gostr "f.go") (gostr "c") (gostr "m") (gostr " \n ") 1 =
      ComputeFingerprint id (gostr "f.go") (gostr "c") (gostr "m") (gostr "\t") 9 ∧
    ComputeFingerprint id (gostr "f.go") (gostr "c") (gostr "m") (gostr " \n ") 1 ≠
      ComputeFingerprint id (gostr "f.go") (gostr "c") (gostr "m") [] 1 := by
  have h := c10_allwhitespace_snippet id Function.injective_id (gostr "f.go") (gostr "c")
    (gostr "m") (gostr " \n ") (by decide) (by decide) 1 2
  exact ⟨h.1, h.2.1 (gostr "\t") (by decide) (by decide) 9, h.2.2⟩

/-- A Changed pair's stored fingerprint equals the fingerprint computed for
its current finding (helper shared by the disjointness argument). -/
theorem diff_changed_prevFp (hash : GoStr → GoStr) (cf : List UBSFinding)
    (dbf : List DBFinding) (cr : ChangeRecord) (h : cr ∈ (Diff hash cf dbf).changed) :
    cr.previous.fingerprint = fpOf hash cr.current := by
  have h2 := (diff_changed_mem hash cf dbf cr).mp h
  have hmem : (fpOf hash cr.current, cr.previous) ∈ buildDbMap dbf :=
    (mem_iff_lookupKV (nodupKeys_buildMap _ _) _ _).mpr h2.2.1
  exact (entry_key_buildMap (fun f : DBFinding => f.fingerprint) dbf _
    (show _ ∈ buildMap (fun f : DBFinding => f.fingerprint) dbf from hmem)).symm

/-- C5: the classification of Diff against the store's unresolved set: a
finding is New exactly when the incoming map carries it at its fingerprint
and the db map has no entry there; a pair is Changed exactly when both maps
carry its fingerprint with differing severities (so an entry present in both
with equal severity lands in no set); a stored record is Resolved exactly
when the db map carries it and the incoming map misses its fingerprint; and
the incoming map resolves every fingerprint to the last incoming finding
that bears it (last one wins on duplicates). -/
theorem c5_diff_classification (hash : GoStr → GoStr) (cf : List UBSFinding)
    (tbl : FindingsTable) :
    (∀ f : UBSFinding, f ∈ (Diff hash cf (GetUnresolved tbl)).new ↔
      lookupKV (buildCurrentMap hash cf) (fpOf hash f) = some f ∧
      lookupKV (buildDbMap (GetUnresolved tbl)) (fpOf hash f) = none) ∧
    (∀ cr : ChangeRecord, cr ∈ (Diff hash cf (GetUnresolved tbl)).changed ↔
      lookupKV (buildCurrentMap hash cf) (fpOf hash cr.current) = some cr.current ∧
      lookupKV (buildDbMap (GetUnresolved tbl)) (fpOf hash cr.current) = some cr.previous ∧
      cr.previous.severity ≠ cr.current.severity) ∧
    (∀ p : DBFinding, p ∈ (Diff hash cf (GetUnresolved tbl)).resolved ↔
      lookupKV (buildDbMap (GetUnresolved tbl)) p.fingerprint = some p ∧
      lookupKV (buildCurrentMap hash cf) p.fingerprint = none) ∧
    (∀ k : GoStr, lookupKV (buildCurrentMap hash cf) k =
      (cf.filter (fun f => decide (fpOf hash f = k))).getLast?) :=
  ⟨diff_new_mem hash cf (GetUnresolved tbl), diff_changed_mem hash cf (GetUnresolved tbl),
    diff_resolved_mem hash cf (GetUnresolved tbl), lookupKV_currentMap_lastWins hash cf⟩

/-- C7: in any DiffResult the differ produces, no fingerprint occurs in more
than one of New (computed fingerprints), Changed (stored fingerprints of the
pairs) and Resolved (stored fingerprints); IsEmpty is true exactly when the
three lists are empty; and TotalActions is the sum of their lengths. -/
theorem c7_disjoint_isEmpty_totalActions (hash : GoStr → GoStr) (cf : List UBSFinding)
    (dbf : List DBFinding) :
    (∀ fp : GoStr,
      ¬ (fp ∈ (Diff hash cf dbf).new.map (fpOf hash) ∧
         fp ∈ (Diff hash cf dbf).changed.map (fun cr => cr.previous.fingerprint)) ∧
      ¬ (fp ∈ (Diff hash cf dbf).new.map (fpOf hash) ∧
         fp ∈ (Diff hash cf dbf).resolved.map (fun p => p.fingerprint)) ∧
      ¬ (fp ∈ (Diff hash cf dbf).changed.map (fun cr => cr.previous.fingerprint) ∧
         fp ∈ (Diff hash cf dbf).resolved.map (fun p => p.fingerprint))) ∧
    ((Diff hash cf dbf).IsEmpty = true ↔
      (Diff hash cf dbf).new = [] ∧ (Diff hash cf dbf).changed = [] ∧
      (Diff hash cf dbf).resolved = []) ∧
    (Diff hash cf dbf).TotalActions =
      (Diff hash cf dbf).new.length + (Diff hash cf dbf).changed.length +
      (Diff hash cf dbf).resolved.length := by
  refine ⟨?_, ?_, rfl⟩
  · intro fp
    refine ⟨?_, ?_, ?_⟩
    · rintro ⟨hn, hc⟩
      rcases List.mem_map.mp hn with ⟨f, hf, rfl⟩
      rcases List.mem_map.mp hc with ⟨cr, hcr, hfp⟩
      have hnone := ((diff_new_mem hash cf dbf f).mp hf).2
      have hsome := ((diff_changed_mem hash cf dbf cr).mp hcr).2.1
      have hkey := diff_changed_prevFp hash cf dbf cr hcr
      rw [hkey] at hfp
      rw [hfp] at hsome
      rw [hnone] at hsome
      cases hsome
    · rintro ⟨hn, hr⟩
      rcases List.mem_map.mp hn with ⟨f, hf, rfl⟩
      rcases List.mem_map.mp hr with ⟨p, hp, hfp⟩
      have hsome := ((diff_new_mem hash cf dbf f).mp hf).1
      have hnone := ((diff_resolved_mem hash cf dbf p).mp hp).2
      rw [hfp] at hnone
      rw [hsome] at hnone
      cases hnone
    · rintro ⟨hc, hr⟩
      rcases List.mem_map.mp hc with ⟨cr, hcr, hfp1⟩
      rcases List.mem_map.mp hr with ⟨p, hp, hfp2⟩
      have hsome := ((diff_changed_mem hash cf dbf cr).mp hcr).1
      have hnone := ((diff_resolved_mem hash cf dbf p).mp hp).2
      have hkey := diff_changed_prevFp hash cf dbf cr hcr
      rw [hkey] at hfp1
      rw [hfp2] at hnone
      rw [hfp1] at hsome
      rw [hsome] at hnone
      cases hnone
  · rw [DiffResult.IsEmpty]
    simp [List.length_eq_zero, and_assoc]

/-- C6 (counterexample): the claim says fingerprints agree whenever the
non-empty snippets differ only in whitespace or letter case; but replacing
the space of a-space-b with a newline is a whitespace-only difference
(character by character), and the two fingerprints differ - the line split
happens before whitespace is collapsed, so a b normalizes to a-space-b while
a-newline-b normalizes to two lines joined as a-bar-b. -/
theorem c6_counterexample_newline_whitespace :
    DifferOnlyInWsOrCase (gostr "a b") (gostr "a\nb") ∧
    Function.Injective (id : GoStr → GoStr) ∧
    ComputeFingerprint id (gostr "f.go") (gostr "c") (gostr "m") (gostr "a b") 1 ≠
      ComputeFingerprint id (gostr "f.go") (gostr "c") (gostr "m") (gostr "a\nb") 1 := by
  refine ⟨?_, Function.injective_id, by decide⟩
  show List.Forall₂ CharWsCaseCompatible (['a', ' ', 'b'] : GoStr) (['a', '\n', 'b'] : GoStr)
  refine List.Forall₂.cons (Or.inl rfl) (List.Forall₂.cons ?_
    (List.Forall₂.cons (Or.inl rfl) List.Forall₂.nil))
  exact Or.inr (Or.inl ⟨by decide, by decide⟩)

/-- C6 (amended): the normalization keeps at most the first 3 and last 3
lines, trims, lowercases and collapses whitespace per line, drops emptied
lines and joins with a bar; consequently two non-empty snippets that split
into the same number of lines whose corresponding lines differ only in
intra-line whitespace or letter case give equal fingerprints (whitespace
edits that change the line structure can change the fingerprint), and with
a collision-free digest a different category gives a different
fingerprint. -/
theorem c6_normalization_equivalence (hash : GoStr → GoStr) (file category message : GoStr) :
    (∀ s1 s2 : GoStr, s1 ≠ [] → s2 ≠ [] → SnippetWsCaseEquiv s1 s2 → ∀ l1 l2 : Nat,
      ComputeFingerprint hash file category message s1 l1 =
        ComputeFingerprint hash file category message s2 l2) ∧
    (Function.Injective hash → ∀ s : GoStr, s ≠ [] → ∀ c2 : GoStr, category ≠ c2 → ∀ l : Nat,
      ComputeFingerprint hash file category message s l ≠
        ComputeFingerprint hash file c2 message s l) := by
  constructor
  · intro s1 s2 hs1 hs2 heqv l1 l2
    apply congrArg hash
    simp only [fingerprintInput, ne_eq, hs1, hs2, not_false_eq_true, if_true,
      normalizeCodeContext_congr heqv]
  · intro hinj s hs c2 hc l heq
    exact fingerprintInput_snippet_category_injective file message s hs hc l (hinj heq)

/-- C6 (witness): c6_normalization_equivalence at concrete snippets - two
snippets equal up to intra-line whitespace and case give one fingerprint,
and changing the category changes it. -/
theorem c6_normalization_equivalence_witness :
    SnippetWsCaseEquiv (gostr "a  B\nc") (gostr "A b\n  c  ") ∧
    ComputeFingerprint id (gostr "f.go") (gostr "c") (gostr "m") (gostr "a  B\nc") 1 =
      ComputeFingerprint id (gostr "f.go") (gostr "c") (gostr "m") (gostr "A b\n  c  ") 2 ∧
    ComputeFingerprint id (gostr "f.go") (gostr "c") (gostr "m") (gostr "x") 1 ≠
      ComputeFingerprint id (gostr "f.go") (gostr "c2") (gostr "m") (gostr "x") 1 := by
  have heqv : SnippetWsCaseEquiv (gostr "a  B\nc") (gostr "A b\n  c  ") := by
    show List.Forall₂ LineWsCaseEquiv
      ((gostr "a  B\nc").splitOn '\n') ((gostr "A b\n  c  ").splitOn '\n')
    have h1 : (gostr "a  B\nc").splitOn '\n' = [gostr "a  B", gostr "c"] := by decide
    have h2 : (gostr "A b\n  c  ").splitOn '\n' = [gostr "A b", gostr "  c  "] := by decide
    rw [h1, h2]
    exact List.Forall₂.cons
      ((by decide : lowerWords (gostr "a  B") = lowerWords (gostr "A b")))
      (List.Forall₂.cons
        ((by decide : lowerWords (gostr "c") = lowerWords (gostr "  c  ")))
        List.Forall₂.nil)
  have h := c6_normalization_equivalence id (gostr "f.go") (gostr "c") (gostr "m")
  exact ⟨heqv, h.1 (gostr "a  B\nc") (gostr "A b\n  c  ") (by decide) (by decide) heqv 1 2,
    h.2 Function.injective_id (gostr "x") (by decide) (gostr "c2") (by decide) 1⟩

/-- C1: evaluating executeActions on a real (non-dry-run) sync over one New
finding with a succeeding tracker: the run performs a mutating tracker
action (the bd create), yet writes no operation-log row at all - the source
of executeActions never calls LogOperation or UpdateOperationStatus - so the
pending-completed/failed logging invariant fails on this run; and even the
unused Transaction helper cannot provide the transition: after BeginCreate
logs the pending row (id 1), CompleteCreate updates the hardcoded id 0, so
the pending row stays pending and no row is ever completed. -/
theorem c1_executeActions_never_logs :
    (∃ e ∈ sampleRun.1.events, eventIsTrackerMutation e = true) ∧
    (∀ e ∈ sampleRun.1.events, eventIsLogWrite e = false) ∧
    ¬ OpLogInvariant sampleRun.1.events ∧
    (CompleteCreate (BeginCreate [] sampleDBFinding 100)).countP
      (fun op => decide (op.status = gostr "pending")) = 1 ∧
    (CompleteCreate (BeginCreate [] sampleDBFinding 100)).countP
      (fun op => decide (op.status = gostr "completed")) = 0 := by
  decide

end Strung
